import Mathlib

set_option maxHeartbeats 1000000

/-!
Verification of mac-cleaner-cli path-safety, backup/restore, removal and
configuration-loading logic. The TypeScript sources are shallowly embedded:
strings are Lean strings, the filesystem is an explicit association list from
canonical paths to nodes, a backup session directory is a tree of entries,
and stateful functions pass their state explicitly.
-/

namespace MacCleaner

/-- JS `hay.includes(pat)` over character lists: true iff `pat` occurs as a
contiguous run inside `hay`. -/
def chIncludes (pat : List Char) : List Char → Bool
  | [] => pat.isPrefixOf []
  | c :: rest => pat.isPrefixOf (c :: rest) || chIncludes pat rest

/-- JS `String.prototype.includes`. -/
def strIncludes (hay pat : String) : Bool := chIncludes pat.data hay.data

/-- JS `String.prototype.startsWith`. -/
def startsWithStr (s p : String) : Bool := p.data.isPrefixOf s.data

/-- JS `String.prototype.endsWith`. -/
def endsWithStr (s suffix : String) : Bool := suffix.data.isSuffixOf s.data

/-- The regular expression test `/\/\.\.($|\/)/.test(path)` from paths.ts:
the pattern matches iff the string contains `/../` or ends with `/..`. -/
def regexDotDotTest (p : String) : Bool :=
  strIncludes p "/../" || endsWithStr p "/.."

/-- `hasTraversalPattern` from paths.ts (src/unnamed/part_000 lines 76-82). -/
def hasTraversalPattern (path : String) : Bool :=
  strIncludes path "../" ||
  strIncludes path "/.." ||
  path == ".." ||
  regexDotDotTest path

/-- Split a character list on the `/` separator (segments of a path).
Always returns a nonempty list; `chSplit "" = [""]`, mirroring JS split. -/
def chSplit : List Char → List (List Char)
  | [] => [[]]
  | c :: rest =>
    if c = '/' then [] :: chSplit rest
    else
      match chSplit rest with
      | s :: ss => (c :: s) :: ss
      | [] => [[c]]

/-- Join segments back with `/` separators (inverse of `chSplit`). -/
def chJoin : List (List Char) → List Char
  | [] => []
  | [s] => s
  | s :: t :: rest => s ++ '/' :: chJoin (t :: rest)

/-- The segment stack of Node path normalization: empty and `.` segments are
dropped, `..` pops the stack (staying at the root when it is empty). -/
def normAux : List (List Char) → List (List Char) → List (List Char)
  | [], stack => stack.reverse
  | s :: rest, stack =>
    if s.isEmpty || s == ['.'] then normAux rest stack
    else if s == ['.', '.'] then normAux rest stack.tail
    else normAux rest (s :: stack)

/-- Node `path.resolve` / `path.normalize` applied to an absolute path. -/
def normalizeAbs (p : String) : String :=
  ⟨'/' :: chJoin (normAux (chSplit p.data) [])⟩

/-- Node `path.resolve(path)` with current working directory `cwd`:
an absolute path is normalized, a relative one is resolved against `cwd`. -/
def resolve (cwd path : String) : String :=
  if startsWithStr path "/" then normalizeAbs path
  else normalizeAbs ⟨cwd.data ++ '/' :: path.data⟩

/-- Node `path.join(a, b)` for an absolute `a`: concatenation with a `/`
separator followed by normalization. -/
def joinPath (a b : String) : String := normalizeAbs ⟨a.data ++ '/' :: b.data⟩

/-- PROTECTED_PATHS from fs.ts (src/unnamed/part_003 lines 215-229). -/
def PROTECTED_PATHS : List String :=
  ["/System", "/usr", "/bin", "/sbin", "/etc", "/var/log", "/var/db",
   "/var/root", "/private/var/db", "/private/var/root", "/private/var/log",
   "/Library/Apple", "/Applications/Utilities"]

/-- ALLOWED_PATHS from fs.ts (src/unnamed/part_003 lines 235-242). -/
def ALLOWED_PATHS : List String :=
  ["/tmp", "/private/tmp", "/var/tmp", "/private/var/tmp", "/var/folders",
   "/private/var/folders"]

/-- `resolved === p || resolved.startsWith(p + '/')` as used by
`isProtectedPath` for both lists. -/
def underRoot (resolved root : String) : Bool :=
  resolved == root || startsWithStr resolved (root ++ "/")

/-- `isProtectedPath` from fs.ts (src/unnamed/part_003 lines 247-257):
resolve, then the allow-list short-circuits to false before the
protected-list is consulted. -/
def isProtectedPath (cwd path : String) : Bool :=
  let resolved := resolve cwd path
  if ALLOWED_PATHS.any (fun p => underRoot resolved p) then false
  else PROTECTED_PATHS.any (fun p => underRoot resolved p)

/-- `validatePathSafety` from fs.ts (src/unnamed/part_003 lines 263-283). -/
def validatePathSafety (home cwd path : String) : Option String :=
  let resolved := resolve cwd path
  if isProtectedPath cwd resolved then
    some ("Refusing to delete protected system path: " ++ path)
  else if resolved == "/" then some "Refusing to delete root directory"
  else if resolved == home then some "Refusing to delete home directory"
  else none

/-- A filesystem node: regular file with content, directory, or symbolic
link recording its target path. -/
inductive FNode where
  | file (content : String)
  | dir
  | symlink (target : String)
deriving DecidableEq

/-- Flat filesystem model: association list from canonical absolute paths
to nodes. -/
abbrev FS := List (String × FNode)

/-- `lstat`-style lookup: find the entry at a canonical path, never
following a final symlink. -/
def lookupFS (fs : FS) (p : String) : Option FNode :=
  match fs.find? (fun e => e.1 == p) with
  | some e => some e.2
  | none => none

/-- `unlink p`: remove exactly the entry at `p`, nothing else. -/
def eraseKey (fs : FS) (p : String) : FS :=
  fs.filter (fun e => !(e.1 == p))

/-- `rm -rf p`: remove the entry at `p` and every entry below it. -/
def eraseTree (fs : FS) (p : String) : FS :=
  fs.filter (fun e => !(e.1 == p || startsWithStr e.1 (p ++ "/")))

/-- `removeItem` from fs.ts (src/unnamed/part_003 lines 451-483) over the
flat filesystem model: dry run returns success untouched; otherwise the
safety check runs, then the re-stat (`lstat`, not following the final
symlink) decides between `unlink` (symlink: only the link entry) and
recursive `rm`. A failed lstat (missing path) is the caught-error branch. -/
def removeItem (home cwd : String) (fs : FS) (path : String) (dryRun : Bool) :
    Bool × FS :=
  if dryRun then (true, fs)
  else if (validatePathSafety home cwd path).isSome then (false, fs)
  else
    let rp := resolve cwd path
    match lookupFS fs rp with
    | none => (false, fs)
    | some (FNode.symlink _) => (true, eraseKey fs rp)
    | some _ => (true, eraseTree fs rp)

/-- `BACKUP_DIR = join(homedir(), '.mac-cleaner-cli', 'backup')` from
backup.ts (src/unnamed/part_003 line 521). -/
def backupRoot (home : String) : String := home ++ "/.mac-cleaner-cli/backup"

/-- `validateRestorePath` from backup.ts (src/unnamed/part_003 lines
528-543): the resolved target must stay inside the home directory and the
raw target must not contain `..`. -/
def validateRestorePath (home cwd targetPath : String) : Option String :=
  let resolved := resolve cwd targetPath
  if !(startsWithStr resolved (home ++ "/") || resolved == home) then
    some ("Path traversal detected: " ++ targetPath ++
      " resolves outside home directory")
  else if strIncludes targetPath ".." then
    some ("Suspicious path pattern detected: " ++ targetPath)
  else none

/-- Accumulated outcome of a restore walk: counts, error list, and the
renames performed, as (target path, file content) pairs. -/
structure RestoreState where
  success : Nat
  failed : Nat
  errors : List String
  moves : List (String × String)
deriving DecidableEq

/-- `s.slice(n)` / dropping the first `n` characters. -/
def strDrop (s : String) (n : Nat) : String := ⟨s.data.drop n⟩

/-- The per-file body of restoreBackup's walk (src/unnamed/part_003 lines
702-736): dispatch on the entry's path relative to the session root. A
relative path `HOME/sub` is restored to `join(home, sub)` after
`validateRestorePath`; exactly `HOME` is skipped; anything else is
rejected as outside the expected structure. `mkdir` plus `rename` of a
validated target is modeled as appending the move; the rename itself is
assumed to succeed. -/
def fileStep (home cwd relFromBackup content : String) (st : RestoreState) :
    RestoreState :=
  if startsWithStr relFromBackup "HOME/" then
    let targetPath := joinPath home (strDrop relFromBackup 5)
    match validateRestorePath home cwd targetPath with
    | some err => { st with failed := st.failed + 1, errors := st.errors ++ [err] }
    | none =>
      { st with success := st.success + 1, moves := st.moves ++ [(targetPath, content)] }
  else if relFromBackup == "HOME" then st
  else
    { st with
      failed := st.failed + 1
      errors := st.errors ++ ["Skipping file outside HOME structure: " ++ relFromBackup] }

/-- An entry of a backup session directory: file with content, or
subdirectory with entries. -/
inductive BEntry where
  | file (name : String) (content : String)
  | dir (name : String) (children : List BEntry)

/-- `relative(sessionRoot, join(dir, name))` along the walk: the walk
carries the relative path `base` of the current directory, and an entry
named `name` inside it has relative path `base/name` (just `name` at the
top level). -/
def childRel (base name : String) : String :=
  if base == "" then name else base ++ "/" ++ name

mutual
/-- One step of restoreBackup's recursive walk `restoreDir`
(src/unnamed/part_003 lines 685-739): directories recurse, files run the
dispatch. -/
def restoreEntry (home cwd base : String) (st : RestoreState) :
    BEntry → RestoreState
  | BEntry.file name content => fileStep home cwd (childRel base name) content st
  | BEntry.dir name children =>
    restoreEntries home cwd (childRel base name) st children

/-- The entry-list fold of restoreBackup's walk: each entry's outcome feeds
the state for the next; no entry aborts the walk. -/
def restoreEntries (home cwd base : String) (st : RestoreState) :
    List BEntry → RestoreState
  | [] => st
  | e :: es => restoreEntries home cwd base (restoreEntry home cwd base st e) es
end

/-- `restoreBackup` from backup.ts (src/unnamed/part_003 lines 669-743).
The contents of the directory named by `backupDirArg` are given as the
entry tree `session`. The guard is the literal source check: the resolved
argument must have the backup root as a *string prefix* (no separator is
appended before the comparison). -/
def restoreBackup (home cwd backupDirArg : String) (session : List BEntry) :
    RestoreState :=
  let resolvedBackupDir := resolve cwd backupDirArg
  if !(startsWithStr resolvedBackupDir (backupRoot home)) then
    { success := 0, failed := 1,
      errors := ["Invalid backup directory: must be within the mac-cleaner-cli backup folder"],
      moves := [] }
  else
    restoreEntries home cwd ""
      { success := 0, failed := 0, errors := [], moves := [] } session

/-- JS `s.replace(pat, rep)` with a plain-string pattern over character
lists: replaces the first occurrence only. -/
def replaceFirstCh (pat rep : List Char) : List Char → List Char
  | [] => if pat.isPrefixOf ([] : List Char) then rep else []
  | c :: cs =>
    if pat.isPrefixOf (c :: cs) then rep ++ (c :: cs).drop pat.length
    else c :: replaceFirstCh pat rep cs

/-- JS `String.prototype.replace` with a plain-string pattern. -/
def replaceFirst (s pat rep : String) : String :=
  ⟨replaceFirstCh pat.data rep.data s.data⟩

/-- The session-relative path under which `backupItem`
(src/unnamed/part_003 lines 552-562) stores an item:
`item.path.replace(homedir(), 'HOME')`. -/
def backupRelPath (home itemPath : String) : String :=
  replaceFirst itemPath home "HOME"

/-- The nested directory chain `backupItem`'s `mkdir(dirname, recursive)`
plus `rename` creates inside a fresh session directory for the given
relative path segments, with the file content at the leaf. -/
def mkTree : List (List Char) → String → List BEntry
  | [], _ => []
  | [n], c => [BEntry.file ⟨n⟩ c]
  | n :: m :: rest, c => [BEntry.dir ⟨n⟩ (mkTree (m :: rest) c)]

/-- The session directory tree after `backupItem` moves a single item with
the given content into a fresh session directory. -/
def sessionTreeOfItem (home itemPath content : String) : List BEntry :=
  mkTree (chSplit (backupRelPath home itemPath).data) content

/-- A JS number after the `Number(...)` coercion that config.ts applies to a
supplied numeric field: either an integer, or some non-integer value
(fractional, NaN, infinite), for which `Number.isInteger` is false. -/
inductive NumVal where
  | int (n : Int)
  | nonInt
deriving DecidableEq

/-- A parsed, untrusted config object (config.ts `Partial<Config>`), with
`none` for an absent (undefined) field. Numeric fields are recorded after
the `Number()` coercion and boolean fields after the `Boolean()` coercion
that `validateConfig` applies. The category and extra-path fields do not
bear on the claims and are omitted. -/
structure PartialConfig where
  downloadsDaysOld : Option NumVal := none
  largeFilesMinSize : Option NumVal := none
  backupRetentionDays : Option NumVal := none
  concurrency : Option NumVal := none
  backupEnabled : Option Bool := none
  parallelScans : Option Bool := none
deriving DecidableEq

/-- A sanitized config (config.ts `Config`), `none` meaning the field is
not set. -/
structure Config where
  downloadsDaysOld : Option Int := none
  largeFilesMinSize : Option Int := none
  backupRetentionDays : Option Int := none
  concurrency : Option Int := none
  backupEnabled : Option Bool := none
  parallelScans : Option Bool := none
deriving DecidableEq

/-- One numeric field of `validateConfig` (config.ts lines 54-88): a
defined value is kept only when it is an integer inside `[lo, hi]`;
otherwise a warning is printed and the field stays unset. -/
def validNum (lo hi : Int) : Option NumVal → Option Int
  | none => none
  | some (NumVal.int n) => if lo ≤ n && n ≤ hi then some n else none
  | some NumVal.nonInt => none

/-- `validateConfig` from config.ts (lines 49-161) restricted to the
numeric and boolean fields, with the constraints of CONFIG_CONSTRAINTS
(lines 37-43). -/
def validateConfig (c : PartialConfig) : Config :=
  { downloadsDaysOld := validNum 1 365 c.downloadsDaysOld
    largeFilesMinSize := validNum 1024 (100 * 1024 * 1024 * 1024) c.largeFilesMinSize
    backupRetentionDays := validNum 1 365 c.backupRetentionDays
    concurrency := validNum 1 16 c.concurrency
    backupEnabled := c.backupEnabled
    parallelScans := c.parallelScans }

/-- DEFAULT_CONFIG from config.ts (lines 163-170). -/
def DEFAULT_CONFIG : Config :=
  { downloadsDaysOld := some 30
    largeFilesMinSize := some (500 * 1024 * 1024)
    backupRetentionDays := some 7
    concurrency := some 4
    backupEnabled := some false
    parallelScans := some true }

/-- The JS spread `{ ...DEFAULT_CONFIG, ...validated }` (config.ts line
210): a field present in `validated` overrides the default. -/
def mergeConfig (d v : Config) : Config :=
  { downloadsDaysOld := match v.downloadsDaysOld with
      | some x => some x
      | none => d.downloadsDaysOld
    largeFilesMinSize := match v.largeFilesMinSize with
      | some x => some x
      | none => d.largeFilesMinSize
    backupRetentionDays := match v.backupRetentionDays with
      | some x => some x
      | none => d.backupRetentionDays
    concurrency := match v.concurrency with
      | some x => some x
      | none => d.concurrency
    backupEnabled := match v.backupEnabled with
      | some x => some x
      | none => d.backupEnabled
    parallelScans := match v.parallelScans with
      | some x => some x
      | none => d.parallelScans }

/-- The observable state of one candidate config file: missing (access or
readFile throws), or present with a byte length and either a parsed object
or `none` when `JSON.parse` throws a SyntaxError. -/
inductive SourceState where
  | missing
  | content (len : Nat) (parsed : Option PartialConfig)
deriving DecidableEq

/-- One iteration of loadConfig's loop over candidate paths (config.ts
lines 194-218): a missing file, an oversized file (> 100KB), or malformed
JSON makes the loop continue; a parsed object is validated and merged over
the defaults. -/
def tryConfigSource : SourceState → Option Config
  | SourceState.missing => none
  | SourceState.content len parsed =>
    if len > 100 * 1024 then none
    else
      match parsed with
      | none => none
      | some pc => some (mergeConfig DEFAULT_CONFIG (validateConfig pc))

/-- loadConfig's path loop: the first source that survives all checks
wins; when every source fails the built-in defaults are returned
(config.ts lines 220-221). -/
def loadConfigLoop : List SourceState → Config
  | [] => DEFAULT_CONFIG
  | s :: rest =>
    match tryConfigSource s with
    | some c => c
    | none => loadConfigLoop rest

/-- The allowed directories for a custom config path (config.ts line 183). -/
def allowedConfigDirs (home : String) : List String :=
  [home, home ++ "/.config"]

/-- `loadConfig` from config.ts (lines 174-222). The module-level
`cachedConfig` is passed and returned explicitly. A custom config path is
supplied together with the state of the file it names; when absent, the
states of the two CONFIG_PATHS candidates are used. The result is the
returned config paired with the new cache. -/
def loadConfig (home cwd : String) (cache : Option Config)
    (custom : Option (String × SourceState)) (sources : List SourceState) :
    Config × Option Config :=
  match cache, custom with
  | some c, none => (c, some c)
  | _, _ =>
    match custom with
    | some (p, st) =>
      let resolved := resolve cwd p
      if (allowedConfigDirs home).any
          (fun dir => startsWithStr resolved (dir ++ "/") || resolved == dir) then
        let r := loadConfigLoop [st]
        (r, some r)
      else (DEFAULT_CONFIG, some DEFAULT_CONFIG)
    | none =>
      let r := loadConfigLoop sources
      (r, some r)

/-- All six DEFAULT_CONFIG fields are defined and the numeric ones lie in
their CONFIG_CONSTRAINTS ranges. -/
def validConfigB (c : Config) : Bool :=
  (match c.downloadsDaysOld with
   | some n => 1 ≤ n && n ≤ 365
   | none => false) &&
  (match c.largeFilesMinSize with
   | some n => 1024 ≤ n && n ≤ 100 * 1024 * 1024 * 1024
   | none => false) &&
  (match c.backupRetentionDays with
   | some n => 1 ≤ n && n ≤ 365
   | none => false) &&
  (match c.concurrency with
   | some n => 1 ≤ n && n ≤ 16
   | none => false) &&
  c.backupEnabled.isSome && c.parallelScans.isSome

/-- A candidate source that yields no config: missing, oversized, or
malformed. -/
def sourceFails : SourceState → Bool
  | SourceState.missing => true
  | SourceState.content len parsed => len > 100 * 1024 || parsed.isNone

/-- An ordinary path segment: nonempty and neither `.` nor `..`. -/
def goodSegB (s : List Char) : Bool :=
  !s.isEmpty && !(s == ['.']) && !(s == ['.', '.'])

/-- An absolute path already in canonical form: leading `/` and every
segment ordinary, so Node resolution leaves it unchanged. -/
def isNormalAbs (p : String) : Bool :=
  match p.data with
  | '/' :: rest => (chSplit rest).all goodSegB
  | _ => false

/-- The relative path accumulated by the restore walk along a chain of
nested entry names. -/
def chainRel (base : String) (segs : List (List Char)) : String :=
  segs.foldl (fun b s => childRel b ⟨s⟩) base

/-! ## Helper lemmas -/

theorem chIncludes_iff (pat hay : List Char) :
    chIncludes pat hay = true ↔ pat <:+: hay := by
  induction hay with
  | nil => simp [chIncludes]
  | cons c rest ih =>
    rw [List.infix_cons_iff]
    simp [chIncludes, ih]

theorem regexDotDotTest_implies_slashdots (p : String)
    (h : regexDotDotTest p = true) : strIncludes p "/.." = true := by
  unfold regexDotDotTest at h
  rw [Bool.or_eq_true] at h
  unfold strIncludes
  rw [chIncludes_iff]
  rcases h with h1 | h2
  · unfold strIncludes at h1
    rw [chIncludes_iff] at h1
    exact List.IsInfix.trans (by decide) h1
  · unfold endsWithStr at h2
    rw [List.isSuffixOf_iff_suffix] at h2
    exact List.IsSuffix.isInfix h2

theorem chSplit_ne_nil (l : List Char) : chSplit l ≠ [] := by
  cases l with
  | nil => simp [chSplit]
  | cons c rest =>
    unfold chSplit
    by_cases h : c = '/'
    · simp [h]
    · simp only [if_neg h]
      cases hs : chSplit rest <;> simp

theorem chJoin_chSplit (l : List Char) : chJoin (chSplit l) = l := by
  induction l with
  | nil => rfl
  | cons c rest ih =>
    unfold chSplit
    by_cases h : c = '/'
    · subst h
      rw [if_pos rfl]
      cases hs : chSplit rest with
      | nil => exact absurd hs (chSplit_ne_nil rest)
      | cons s ss =>
        show chJoin ([] :: s :: ss) = '/' :: rest
        rw [chJoin, List.nil_append, ← hs, ih]
    · rw [if_neg h]
      cases hs : chSplit rest with
      | nil => exact absurd hs (chSplit_ne_nil rest)
      | cons s ss =>
        rw [hs] at ih
        cases ss with
        | nil =>
          show chJoin [c :: s] = c :: rest
          rw [chJoin]
          rw [show chJoin [s] = s from rfl] at ih
          rw [ih]
        | cons t ts =>
          show chJoin ((c :: s) :: t :: ts) = c :: rest
          rw [chJoin] at ih ⊢
          rw [List.cons_append, ih]

theorem chSplit_append (a b : List Char) :
    chSplit (a ++ '/' :: b) = chSplit a ++ chSplit b := by
  induction a with
  | nil => simp [chSplit]
  | cons c rest ih =>
    by_cases h : c = '/'
    · subst h
      simp only [List.cons_append]
      simp [chSplit, ih]
    · simp only [List.cons_append, chSplit, List.append_eq, ih]
      rw [if_neg h, if_neg h]
      cases hs : chSplit rest with
      | nil => exact absurd hs (chSplit_ne_nil rest)
      | cons s ss => simp [hs]

theorem normAux_all_good (segs : List (List Char)) :
    ∀ stack : List (List Char), segs.all goodSegB = true →
      normAux segs stack = stack.reverse ++ segs := by
  induction segs with
  | nil => intro stack _; simp [normAux]
  | cons s rest ih =>
    intro stack h
    rw [List.all_cons, Bool.and_eq_true] at h
    have hg := h.1
    unfold goodSegB at hg
    simp only [Bool.and_eq_true, Bool.not_eq_true'] at hg
    unfold normAux
    rw [if_neg (by simp [hg.1.1, hg.1.2]), if_neg (by simp [hg.2]),
      ih (s :: stack) h.2]
    simp

theorem isNormalAbs_append (home rel : String)
    (hh : isNormalAbs home = true)
    (hr : (chSplit rel.data).all goodSegB = true) :
    isNormalAbs ⟨home.data ++ '/' :: rel.data⟩ = true := by
  unfold isNormalAbs at hh
  split at hh
  next rest heq =>
    unfold isNormalAbs
    rw [heq, List.cons_append]
    show (chSplit (rest ++ '/' :: rel.data)).all goodSegB = true
    rw [chSplit_append, List.all_append]
    simp [hh, hr]
  next =>
    exact absurd hh (by simp)

theorem normalizeAbs_eq_self (p : String) (h : isNormalAbs p = true) :
    normalizeAbs p = p := by
  unfold isNormalAbs at h
  split at h
  next rest heq =>
    unfold normalizeAbs
    rw [heq]
    have h1 : chSplit ('/' :: rest) = [] :: chSplit rest := by
      simp [chSplit]
    have h2 : normAux ([] :: chSplit rest) [] = normAux (chSplit rest) [] := by
      simp [normAux]
    rw [h1, h2, normAux_all_good _ [] h, List.reverse_nil, List.nil_append,
      chJoin_chSplit]
    exact String.ext (by rw [heq])
  next =>
    exact absurd h (by simp)

theorem lookupFS_eraseKey (fs : FS) (p q : String) (h : q ≠ p) :
    lookupFS (eraseKey fs p) q = lookupFS fs q := by
  induction fs with
  | nil => rfl
  | cons e rest ih =>
    unfold eraseKey at ih ⊢
    rw [List.filter_cons]
    by_cases he : e.1 = p
    · have hq : (e.1 == q) = false := by
        rw [he]
        exact beq_false_of_ne (fun hpq => h hpq.symm)
      have hcond : (!(e.1 == p)) = false := by simp [he]
      rw [hcond, if_neg (by simp)]
      unfold lookupFS
      rw [List.find?_cons_of_neg _ (by simp [hq])]
      exact ih
    · have hkeep : (!(e.1 == p)) = true := by simp [he]
      rw [if_pos hkeep]
      unfold lookupFS
      by_cases hq : e.1 = q
      · rw [List.find?_cons_of_pos _ (by simp [hq]),
          List.find?_cons_of_pos _ (by simp [hq])]
      · rw [List.find?_cons_of_neg _ (by simp [hq]),
          List.find?_cons_of_neg _ (by simp [hq])]
        exact ih

theorem appendSlash_data (a b : String) :
    (a ++ "/" ++ b).data = a.data ++ '/' :: b.data := by
  rw [String.data_append, String.data_append]
  rw [show ("/" : String).data = ['/'] from rfl]
  simp

theorem isPrefixOf_append_self (a b : List Char) :
    a.isPrefixOf (a ++ b) = true := by
  simp

theorem childRel_data (base : String) (hb : base.data ≠ []) (s : List Char) :
    (childRel base ⟨s⟩).data = base.data ++ '/' :: s := by
  have hne : ¬ base = "" := fun h => hb (by rw [h])
  unfold childRel
  rw [if_neg (by simp [hne])]
  exact appendSlash_data base ⟨s⟩

theorem chainRel_data_ne (segs : List (List Char)) :
    ∀ base : String, base.data ≠ [] → segs ≠ [] →
      (chainRel base segs).data = base.data ++ '/' :: chJoin segs := by
  induction segs with
  | nil => intro base _ hs; exact absurd rfl hs
  | cons s rest ih =>
    intro base hb _
    cases rest with
    | nil =>
      show (childRel base ⟨s⟩).data = base.data ++ '/' :: chJoin [s]
      rw [childRel_data base hb s]
      rfl
    | cons t ts =>
      show (chainRel (childRel base ⟨s⟩) (t :: ts)).data = _
      rw [ih (childRel base ⟨s⟩) (by rw [childRel_data base hb s]; simp)
        (by simp), childRel_data base hb s]
      show _ = base.data ++ '/' :: (s ++ '/' :: chJoin (t :: ts))
      simp

theorem chainRel_nil_base (n : List Char) (hn : n ≠ []) (segs : List (List Char)) :
    chainRel "" (n :: segs) = ⟨chJoin (n :: segs)⟩ := by
  have h0 : chainRel "" (n :: segs) = chainRel ⟨n⟩ segs := by
    show chainRel (childRel "" ⟨n⟩) segs = chainRel ⟨n⟩ segs
    rw [show childRel "" ⟨n⟩ = ⟨n⟩ from by simp [childRel]]
  rw [h0]
  cases segs with
  | nil => rfl
  | cons t ts =>
    apply String.ext
    rw [chainRel_data_ne (t :: ts) ⟨n⟩ hn (by simp)]
    rfl

theorem restoreEntries_mkTree (home cwd content : String) :
    ∀ (segs : List (List Char)) (n : List Char) (base : String) (st : RestoreState),
      restoreEntries home cwd base st (mkTree (n :: segs) content) =
        fileStep home cwd (chainRel base (n :: segs)) content st := by
  intro segs
  induction segs with
  | nil =>
    intro n base st
    simp [mkTree, restoreEntries, restoreEntry, chainRel]
  | cons m rest ih =>
    intro n base st
    simp only [mkTree, restoreEntries, restoreEntry]
    rw [ih]
    simp [chainRel]

/-! ## Claim theorems -/

/-- C6, counterexample: the claim quantifies over all paths containing the
substring `..`, yet `/x/a..b` contains `..` and `hasTraversalPattern`
returns false on it; moreover `/x/..y` is an ordinary absolute path with
no `..` traversal segment and the function returns true on it. -/
theorem hasTraversalPattern_misses_plain_dotdot_substring :
    strIncludes "/x/a..b" ".." = true ∧
    hasTraversalPattern "/x/a..b" = false ∧
    hasTraversalPattern "/x/..y" = true := by
  decide

/-- C6, amended: `hasTraversalPattern` returns true exactly for the paths
containing the substring `../` or the substring `/..`, or equal to `..`;
every path containing none of these (in particular every ordinary
absolute path without such patterns) yields false. The regular-expression
disjunct of the source is subsumed by the `/..` substring check. -/
theorem hasTraversalPattern_characterization (p : String) :
    hasTraversalPattern p =
      (strIncludes p "../" || strIncludes p "/.." || p == "..") := by
  unfold hasTraversalPattern
  cases h : regexDotDotTest p
  · simp [h]
  · have h2 := regexDotDotTest_implies_slashdots p h
    simp [h, h2]

/-- C5: `removeItem` with dryRun=true returns success and leaves the
filesystem unchanged, for every path (protected paths, the root directory
and the home directory included), and repeated dry-run calls are
idempotent: each returns the same success result with zero side effects. -/
theorem removeItem_dryRun_is_noop (home cwd : String) (fs : FS) (path : String) :
    removeItem home cwd fs path true = (true, fs) ∧
    removeItem home cwd (removeItem home cwd fs path true).2 path true = (true, fs) := by
  constructor <;> rfl

/-- C4: when the re-stat (lstat, never following the final symlink) shows
a symbolic link, `removeItem` with dryRun=false unlinks at most the link
entry itself: every path other than the link — in particular the link's
target whenever it is a distinct path — keeps its existence and its
content. -/
theorem removeItem_symlink_preserves_other_paths
    (home cwd : String) (fs : FS) (path t q : String)
    (hstat : lookupFS fs (resolve cwd path) = some (FNode.symlink t))
    (hq : q ≠ resolve cwd path) :
    lookupFS (removeItem home cwd fs path false).2 q = lookupFS fs q := by
  by_cases hsafe : (validatePathSafety home cwd path).isSome
  · simp [removeItem, hsafe]
  · simp only [removeItem, hsafe, hstat, Bool.false_eq_true, if_false]
    exact lookupFS_eraseKey fs (resolve cwd path) q hq

/-- Witness for C4 at a concrete filesystem: a symlink `/a/ln` pointing at
`/a/t`; after removal the target entry is untouched. -/
theorem removeItem_symlink_preserves_other_paths_witness :
    lookupFS
      (removeItem "/h" "/" [("/a/ln", FNode.symlink "/a/t"), ("/a/t", FNode.file "T")]
        "/a/ln" false).2 "/a/t" =
    lookupFS [("/a/ln", FNode.symlink "/a/t"), ("/a/t", FNode.file "T")] "/a/t" :=
  removeItem_symlink_preserves_other_paths "/h" "/"
    [("/a/ln", FNode.symlink "/a/t"), ("/a/t", FNode.file "T")]
    "/a/ln" "/a/t" "/a/t" (by decide) (by decide)

/-- C3: `isProtectedPath` checks the allow-list first: any path resolving
to, or below, an allowed root yields false regardless of the deny-list;
any path resolving to, or below, a protected root while under no allowed
root yields true; and concretely `/var/log` is protected while
`/var/folders` and `/var/folders/abc/def` are not, for every working
directory. -/
theorem isProtectedPath_allowList_precedence (cwd path : String) :
    ((ALLOWED_PATHS.any fun a => underRoot (resolve cwd path) a) = true →
       isProtectedPath cwd path = false) ∧
    ((PROTECTED_PATHS.any fun d => underRoot (resolve cwd path) d) = true →
       (ALLOWED_PATHS.all fun a => !underRoot (resolve cwd path) a) = true →
       isProtectedPath cwd path = true) ∧
    isProtectedPath cwd "/var/log" = true ∧
    isProtectedPath cwd "/var/folders" = false ∧
    isProtectedPath cwd "/var/folders/abc/def" = false := by
  refine ⟨?_, ?_, ?_, ?_, ?_⟩
  · intro hallow
    simp [isProtectedPath, hallow]
  · intro hprot hallow
    have hnone : (ALLOWED_PATHS.any fun a => underRoot (resolve cwd path) a) = false := by
      rw [List.any_eq_false]
      rw [List.all_eq_true] at hallow
      intro a ha
      have h1 := hallow a ha
      simp only [Bool.not_eq_true'] at h1
      simp [h1]
    simp [isProtectedPath, hnone, hprot]
  · have hres : resolve cwd "/var/log" = "/var/log" := by
      unfold resolve
      rw [if_pos (by decide)]
      decide
    simp only [isProtectedPath, hres]
    decide
  · have hres : resolve cwd "/var/folders" = "/var/folders" := by
      unfold resolve
      rw [if_pos (by decide)]
      decide
    simp only [isProtectedPath, hres]
    decide
  · have hres : resolve cwd "/var/folders/abc/def" = "/var/folders/abc/def" := by
      unfold resolve
      rw [if_pos (by decide)]
      decide
    simp only [isProtectedPath, hres]
    decide

/-- Witness for C3: an allow-listed temp path overrides nothing protected
and yields false; a path under `/etc` is protected. -/
theorem isProtectedPath_allowList_precedence_witness :
    isProtectedPath "/" "/var/tmp/x" = false ∧
    isProtectedPath "/" "/etc/hosts" = true :=
  ⟨(isProtectedPath_allowList_precedence "/" "/var/tmp/x").1 (by decide),
   (isProtectedPath_allowList_precedence "/" "/etc/hosts").2.1 (by decide) (by decide)⟩

/-- C1, code-bug evaluation: `/Users/u/.mac-cleaner-cli/backup-evil` is
already canonical, is not the backup root `/Users/u/.mac-cleaner-cli/backup`
and is not under it, so the claim requires restoreBackup to reject it with
zero successes and a single invalid-backup-directory error and to move
nothing; but the source guard only requires the backup root to be a
*string prefix* of the resolved argument (no separator is appended), so
this sibling directory passes the guard and its contents are restored:
one success and one performed move. -/
theorem restoreBackup_accepts_sibling_of_backup_root :
    resolve "/" "/Users/u/.mac-cleaner-cli/backup-evil"
        = "/Users/u/.mac-cleaner-cli/backup-evil" ∧
    ("/Users/u/.mac-cleaner-cli/backup-evil" == backupRoot "/Users/u") = false ∧
    startsWithStr "/Users/u/.mac-cleaner-cli/backup-evil"
        (backupRoot "/Users/u" ++ "/") = false ∧
    restoreBackup "/Users/u" "/" "/Users/u/.mac-cleaner-cli/backup-evil"
        [BEntry.dir "HOME" [BEntry.file "f.txt" "data"]] =
      { success := 1, failed := 0, errors := [],
        moves := [("/Users/u/f.txt", "data")] } := by
  decide

/-- C2, counterexample: the round-trip law as stated quantifies over every
original path strictly inside the home directory; for the file
`/Users/u/a..b` (content "c") the backed-up session restores nothing —
the restore rejects the target because it contains `..` — so no file with
the original content reappears at the original path: one failure, zero
successes, no performed moves. -/
theorem backup_restore_roundTrip_fails_on_dotdot_name :
    restoreBackup "/Users/u" "/" "/Users/u/.mac-cleaner-cli/backup/s1"
        (sessionTreeOfItem "/Users/u" "/Users/u/a..b" "c") =
      { success := 0, failed := 1,
        errors := ["Suspicious path pattern detected: /Users/u/a..b"],
        moves := [] } := by
  decide

theorem replaceFirstCh_append (pat rep t : List Char) (hp : pat ≠ []) :
    replaceFirstCh pat rep (pat ++ t) = rep ++ t := by
  cases hpt : pat ++ t with
  | nil =>
    cases pat with
    | nil => exact absurd rfl hp
    | cons a b => simp at hpt
  | cons c cs =>
    have h1 : pat.isPrefixOf (c :: cs) = true := by
      rw [← hpt]
      exact isPrefixOf_append_self _ _
    have h2 : (c :: cs).drop pat.length = t := by
      rw [← hpt]
      exact List.drop_left _ _
    simp [replaceFirstCh, h1, h2]

/-- C2, amended: the round-trip law holds for every file whose original
path `home ++ "/" ++ rel` lies strictly inside the home directory, is in
canonical form with ordinary segments, and contains no `..` substring
(the exclusion the counterexample forces): `backupItem` into a fresh
session directory under the backup root followed by `restoreBackup` on
that session restores exactly one file, at the original path, with the
original content. -/
theorem backup_restore_roundTrip_restores_content
    (home rel content ts cwd : String)
    (hh : isNormalAbs home = true)
    (hr : (chSplit rel.data).all goodSegB = true)
    (hdots : strIncludes (home ++ "/" ++ rel) ".." = false)
    (hsess : startsWithStr (resolve cwd (backupRoot home ++ "/" ++ ts))
        (backupRoot home) = true) :
    restoreBackup home cwd (backupRoot home ++ "/" ++ ts)
        (sessionTreeOfItem home (home ++ "/" ++ rel) content) =
      { success := 1, failed := 0, errors := [],
        moves := [(home ++ "/" ++ rel, content)] } := by
  obtain ⟨hrest, hhd⟩ : ∃ r, home.data = '/' :: r := by
    unfold isNormalAbs at hh
    split at hh
    next r heq => exact ⟨r, heq⟩
    next => exact absurd hh (by simp)
  have hP : (home ++ "/" ++ rel).data = home.data ++ '/' :: rel.data :=
    appendSlash_data home rel
  have hnorm : isNormalAbs (home ++ "/" ++ rel) = true := by
    have h7 := isNormalAbs_append home rel hh hr
    rwa [show (⟨home.data ++ '/' :: rel.data⟩ : String) = home ++ "/" ++ rel from
      String.ext (by rw [hP])] at h7
  have hbrp : backupRelPath home (home ++ "/" ++ rel)
      = ⟨"HOME".data ++ '/' :: rel.data⟩ := by
    unfold backupRelPath replaceFirst
    apply String.ext
    show replaceFirstCh home.data "HOME".data (home ++ "/" ++ rel).data = _
    rw [hP]
    exact replaceFirstCh_append home.data "HOME".data ('/' :: rel.data)
      (by rw [hhd]; simp)
  have htree : sessionTreeOfItem home (home ++ "/" ++ rel) content
      = mkTree ("HOME".data :: chSplit rel.data) content := by
    unfold sessionTreeOfItem
    rw [hbrp]
    show mkTree (chSplit ("HOME".data ++ '/' :: rel.data)) content = _
    rw [chSplit_append, show chSplit "HOME".data = ["HOME".data] from by decide]
    rfl
  have hslashdata : ("/" : String).data = ['/'] := rfl
  have hcat : "HOME".data ++ '/' :: rel.data = "HOME/".data ++ rel.data := by
    rw [show ("HOME/" : String).data = "HOME".data ++ ['/'] from by decide]
    simp
  have hstart : startsWithStr ⟨"HOME".data ++ '/' :: rel.data⟩ "HOME/" = true := by
    unfold startsWithStr
    show ("HOME/").data.isPrefixOf ("HOME".data ++ '/' :: rel.data) = true
    rw [hcat]
    exact isPrefixOf_append_self _ _
  have hdrop : strDrop ⟨"HOME".data ++ '/' :: rel.data⟩ 5 = rel := by
    apply String.ext
    show ("HOME".data ++ '/' :: rel.data).drop 5 = rel.data
    rw [hcat]
    exact List.drop_left' (by decide)
  have hjoin : joinPath home rel = home ++ "/" ++ rel := by
    unfold joinPath
    rw [show (⟨home.data ++ '/' :: rel.data⟩ : String) = home ++ "/" ++ rel from
      String.ext (by rw [hP])]
    exact normalizeAbs_eq_self _ hnorm
  have habs : startsWithStr (home ++ "/" ++ rel) "/" = true := by
    unfold startsWithStr
    rw [hP, hhd, hslashdata, List.cons_append]
    simp [List.isPrefixOf]
  have hres : resolve cwd (home ++ "/" ++ rel) = home ++ "/" ++ rel := by
    unfold resolve
    rw [if_pos habs]
    exact normalizeAbs_eq_self _ hnorm
  have hstartsHome : startsWithStr (home ++ "/" ++ rel) (home ++ "/") = true := by
    unfold startsWithStr
    rw [hP, String.data_append, hslashdata,
      show home.data ++ '/' :: rel.data = (home.data ++ ['/']) ++ rel.data from by simp]
    exact isPrefixOf_append_self _ _
  have hval : validateRestorePath home cwd (home ++ "/" ++ rel) = none := by
    unfold validateRestorePath
    rw [hres]
    rw [if_neg (by simp [hstartsHome])]
    rw [if_neg (by simp [hdots])]
  rw [htree]
  unfold restoreBackup
  rw [if_neg (by simp [hsess])]
  rw [restoreEntries_mkTree home cwd content (chSplit rel.data) "HOME".data "" _]
  rw [chainRel_nil_base "HOME".data (by decide) (chSplit rel.data)]
  have hrelJoin : chJoin ("HOME".data :: chSplit rel.data)
      = "HOME".data ++ '/' :: rel.data := by
    cases hs : chSplit rel.data with
    | nil => exact absurd hs (chSplit_ne_nil _)
    | cons s ss =>
      rw [chJoin, ← hs, chJoin_chSplit]
  rw [hrelJoin]
  unfold fileStep
  rw [if_pos hstart, hdrop, hjoin]
  simp only [hval]
  simp

/-- Witness for C2: a concrete round trip inside home `/Users/u` for the
file `docs/notes.txt` with content "hello". -/
theorem backup_restore_roundTrip_restores_content_witness :
    restoreBackup "/Users/u" "/"
        (backupRoot "/Users/u" ++ "/" ++ "2024-01-01T00-00-00Z")
        (sessionTreeOfItem "/Users/u" ("/Users/u" ++ "/" ++ "docs/notes.txt")
          "hello") =
      { success := 1, failed := 0, errors := [],
        moves := [("/Users/u" ++ "/" ++ "docs/notes.txt", "hello")] } :=
  backup_restore_roundTrip_restores_content "/Users/u" "docs/notes.txt" "hello"
    "2024-01-01T00-00-00Z" "/" (by decide) (by decide) (by decide) (by decide)

/-- C7: during the restore walk each file entry is dispatched on its
session-relative path: `HOME/sub` is restored to the real home directory
joined with `sub` (a validated target adds one success and exactly that
move, a rejected target adds one failure); a bare `HOME` is skipped and
counted neither way; a path not beginning with the placeholder adds one
failure with an outside-expected-structure error; and the walk always
proceeds to the remaining entries, whatever an entry's outcome. -/
theorem restore_walk_dispatch (home cwd r content : String) (st : RestoreState) :
    ((∀ sub : String, r = "HOME/" ++ sub →
       fileStep home cwd r content st =
         match validateRestorePath home cwd (joinPath home (strDrop r 5)) with
         | some err =>
           { st with failed := st.failed + 1, errors := st.errors ++ [err] }
         | none =>
           { st with
             success := st.success + 1
             moves := st.moves ++ [(joinPath home (strDrop r 5), content)] }) ∧
     (r = "HOME" → fileStep home cwd r content st = st) ∧
     (startsWithStr r "HOME/" = false → r ≠ "HOME" →
       fileStep home cwd r content st =
         { st with
           failed := st.failed + 1
           errors := st.errors ++ ["Skipping file outside HOME structure: " ++ r] })) ∧
    (∀ (base : String) (e : BEntry) (es : List BEntry),
      restoreEntries home cwd base st (e :: es) =
        restoreEntries home cwd base (restoreEntry home cwd base st e) es) := by
  refine ⟨⟨?_, ?_, ?_⟩, ?_⟩
  · intro sub hsub
    have hpre : startsWithStr r "HOME/" = true := by
      rw [hsub]
      unfold startsWithStr
      rw [String.data_append]
      exact isPrefixOf_append_self _ _
    unfold fileStep
    rw [if_pos hpre]
  · intro hr
    subst hr
    rfl
  · intro h1 h2
    unfold fileStep
    rw [if_neg (by simp [h1]), if_neg (by simp [h2])]
  · intro base e es
    rfl

/-- Witness for C7: the three dispatch outcomes and the continuation of
the walk on a concrete session. -/
theorem restore_walk_dispatch_witness :
    fileStep "/Users/u" "/" "HOME/a.txt" "c" { success := 0, failed := 0, errors := [], moves := [] } =
      { success := 1, failed := 0, errors := [],
        moves := [("/Users/u/a.txt", "c")] } ∧
    fileStep "/Users/u" "/" "HOME" "c" { success := 0, failed := 0, errors := [], moves := [] } =
      { success := 0, failed := 0, errors := [], moves := [] } ∧
    fileStep "/Users/u" "/" "evil.txt" "c" { success := 0, failed := 0, errors := [], moves := [] } =
      { success := 0, failed := 1,
        errors := ["Skipping file outside HOME structure: evil.txt"], moves := [] } ∧
    restoreEntries "/Users/u" "/" "" { success := 0, failed := 0, errors := [], moves := [] }
        [BEntry.file "evil.txt" "c", BEntry.file "x" "y"] =
      restoreEntries "/Users/u" "/" ""
        (restoreEntry "/Users/u" "/" ""
          { success := 0, failed := 0, errors := [], moves := [] }
          (BEntry.file "evil.txt" "c"))
        [BEntry.file "x" "y"] := by
  refine ⟨?_, ?_, ?_, ?_⟩
  · exact ((restore_walk_dispatch "/Users/u" "/" "HOME/a.txt" "c"
      { success := 0, failed := 0, errors := [], moves := [] }).1.1 "a.txt"
        (by decide)).trans (by decide)
  · exact (restore_walk_dispatch "/Users/u" "/" "HOME" "c"
      { success := 0, failed := 0, errors := [], moves := [] }).1.2.1 (by decide)
  · exact ((restore_walk_dispatch "/Users/u" "/" "evil.txt" "c"
      { success := 0, failed := 0, errors := [], moves := [] }).1.2.2
        (by decide) (by decide)).trans (by decide)
  · exact (restore_walk_dispatch "/Users/u" "/" "" "unused"
      { success := 0, failed := 0, errors := [], moves := [] }).2 ""
        (BEntry.file "evil.txt" "c") [BEntry.file "x" "y"]

theorem tryConfigSource_of_fails (s : SourceState) (h : sourceFails s = true) :
    tryConfigSource s = none := by
  cases s with
  | missing => rfl
  | content len parsed =>
    unfold sourceFails at h
    rw [Bool.or_eq_true] at h
    simp only [tryConfigSource]
    by_cases hl : len > 100 * 1024
    · rw [if_pos hl]
    · rw [if_neg hl]
      rcases h with h | h
      · exact absurd (of_decide_eq_true h) hl
      · rw [Option.isNone_iff_eq_none] at h
        rw [h]

theorem loadConfigLoop_of_all_fail (sources : List SourceState)
    (h : ∀ s ∈ sources, sourceFails s = true) :
    loadConfigLoop sources = DEFAULT_CONFIG := by
  induction sources with
  | nil => rfl
  | cons s rest ih =>
    unfold loadConfigLoop
    rw [tryConfigSource_of_fails s (h s (by simp))]
    exact ih (fun x hx => h x (by simp [hx]))

theorem loadConfig_custom_eq (home cwd : String) (cache : Option Config)
    (p : String) (st : SourceState) (sources : List SourceState) :
    loadConfig home cwd cache (some (p, st)) sources =
      (if ((allowedConfigDirs home).any fun dir =>
            startsWithStr (resolve cwd p) (dir ++ "/") || resolve cwd p == dir)
          = true
       then (loadConfigLoop [st], some (loadConfigLoop [st]))
       else (DEFAULT_CONFIG, some DEFAULT_CONFIG)) := by
  cases cache <;> rfl

theorem mergeField_validNum (lo hi d : Int) (x : Option NumVal) :
    (match validNum lo hi x with
     | some y => some y
     | none => some d) =
      match x with
      | some (NumVal.int n) => if lo ≤ n && n ≤ hi then some n else some d
      | _ => some d := by
  cases x with
  | none => simp [validNum]
  | some v =>
    cases v with
    | int n =>
      simp only [validNum]
      by_cases hb : (lo ≤ n && n ≤ hi) = true
      · rw [if_pos hb]
        rw [if_pos hb]
      · rw [if_neg hb]
        rw [if_neg hb]
    | nonInt => simp [validNum]

theorem validNum_merge_ok (lo hi d : Int) (x : Option NumVal)
    (hlo : lo ≤ d) (hhi : d ≤ hi) :
    (match (match validNum lo hi x with
            | some y => some y
            | none => some d) with
     | some n => lo ≤ n && n ≤ hi
     | none => false) = true := by
  cases x with
  | none => simp [validNum, hlo, hhi]
  | some v =>
    cases v with
    | int n =>
      simp only [validNum]
      by_cases hb : (lo ≤ n && n ≤ hi) = true
      · rw [if_pos hb]
        exact hb
      · rw [if_neg hb]
        simp [hlo, hhi]
    | nonInt => simp [validNum, hlo, hhi]

theorem validConfigB_merge (pc : PartialConfig) :
    validConfigB (mergeConfig DEFAULT_CONFIG (validateConfig pc)) = true := by
  unfold validConfigB mergeConfig validateConfig DEFAULT_CONFIG
  simp only [Bool.and_eq_true]
  refine ⟨⟨⟨⟨⟨?_, ?_⟩, ?_⟩, ?_⟩, ?_⟩, ?_⟩
  · exact validNum_merge_ok 1 365 30 pc.downloadsDaysOld (by decide) (by decide)
  · exact validNum_merge_ok 1024 (100 * 1024 * 1024 * 1024) (500 * 1024 * 1024)
      pc.largeFilesMinSize (by decide) (by decide)
  · exact validNum_merge_ok 1 365 7 pc.backupRetentionDays (by decide) (by decide)
  · exact validNum_merge_ok 1 16 4 pc.concurrency (by decide) (by decide)
  · cases pc.backupEnabled <;> simp
  · cases pc.parallelScans <;> simp

theorem tryConfigSource_valid (s : SourceState) (c : Config)
    (h : tryConfigSource s = some c) : validConfigB c = true := by
  cases s with
  | missing => simp [tryConfigSource] at h
  | content len parsed =>
    simp only [tryConfigSource] at h
    by_cases hl : len > 100 * 1024
    · rw [if_pos hl] at h
      exact absurd h (by simp)
    · rw [if_neg hl] at h
      cases parsed with
      | none => simp at h
      | some pc =>
        simp only [Option.some.injEq] at h
        rw [← h]
        exact validConfigB_merge pc

theorem loadConfigLoop_valid (sources : List SourceState) :
    validConfigB (loadConfigLoop sources) = true := by
  induction sources with
  | nil => decide
  | cons s rest ih =>
    unfold loadConfigLoop
    cases hts : tryConfigSource s with
    | none => exact ih
    | some c => exact tryConfigSource_valid s c hts

/-- C8: for every numeric config field (downloadsDaysOld,
largeFilesMinSize, backupRetentionDays, concurrency) a supplied value
that is not an integer or lies outside the field's fixed [min,max] range
makes the loaded configuration carry the built-in default (for example a
downloadsDaysOld of -5 loads as 30, not -5), while an in-range integer
value is retained as supplied. -/
theorem loadConfig_numeric_field_validation
    (home cwd : String) (pc : PartialConfig) (len : Nat)
    (hlen : len ≤ 100 * 1024) :
    ((loadConfig home cwd none none
        [SourceState.content len (some pc)]).1.downloadsDaysOld =
       match pc.downloadsDaysOld with
       | some (NumVal.int n) => if 1 ≤ n && n ≤ 365 then some n else some 30
       | _ => some 30) ∧
    ((loadConfig home cwd none none
        [SourceState.content len (some pc)]).1.largeFilesMinSize =
       match pc.largeFilesMinSize with
       | some (NumVal.int n) =>
         if 1024 ≤ n && n ≤ 100 * 1024 * 1024 * 1024 then some n
         else some (500 * 1024 * 1024)
       | _ => some (500 * 1024 * 1024)) ∧
    ((loadConfig home cwd none none
        [SourceState.content len (some pc)]).1.backupRetentionDays =
       match pc.backupRetentionDays with
       | some (NumVal.int n) => if 1 ≤ n && n ≤ 365 then some n else some 7
       | _ => some 7) ∧
    ((loadConfig home cwd none none
        [SourceState.content len (some pc)]).1.concurrency =
       match pc.concurrency with
       | some (NumVal.int n) => if 1 ≤ n && n ≤ 16 then some n else some 4
       | _ => some 4) := by
  have hload : (loadConfig home cwd none none
      [SourceState.content len (some pc)]).1
      = mergeConfig DEFAULT_CONFIG (validateConfig pc) := by
    show (loadConfigLoop [SourceState.content len (some pc)]) = _
    simp only [loadConfigLoop, tryConfigSource]
    rw [if_neg (by omega)]
  rw [hload]
  refine ⟨?_, ?_, ?_, ?_⟩
  · show (match validNum 1 365 pc.downloadsDaysOld with
          | some y => some y
          | none => some 30) = _
    exact mergeField_validNum 1 365 30 pc.downloadsDaysOld
  · show (match validNum 1024 (100 * 1024 * 1024 * 1024) pc.largeFilesMinSize with
          | some y => some y
          | none => some (500 * 1024 * 1024)) = _
    exact mergeField_validNum 1024 (100 * 1024 * 1024 * 1024) (500 * 1024 * 1024)
      pc.largeFilesMinSize
  · show (match validNum 1 365 pc.backupRetentionDays with
          | some y => some y
          | none => some 7) = _
    exact mergeField_validNum 1 365 7 pc.backupRetentionDays
  · show (match validNum 1 16 pc.concurrency with
          | some y => some y
          | none => some 4) = _
    exact mergeField_validNum 1 16 4 pc.concurrency

/-- Witness for C8: out-of-range -5 loads as the default 30, a
non-integer size loads as the default, an out-of-range retention loads as
the default, and an in-range concurrency of 8 is retained. -/
theorem loadConfig_numeric_field_validation_witness :
    (loadConfig "/h" "/" none none
      [SourceState.content 10 (some
        { downloadsDaysOld := some (NumVal.int (-5))
          largeFilesMinSize := some NumVal.nonInt
          backupRetentionDays := some (NumVal.int 400)
          concurrency := some (NumVal.int 8) })]).1.downloadsDaysOld = some 30 ∧
    (loadConfig "/h" "/" none none
      [SourceState.content 10 (some
        { downloadsDaysOld := some (NumVal.int (-5))
          largeFilesMinSize := some NumVal.nonInt
          backupRetentionDays := some (NumVal.int 400)
          concurrency := some (NumVal.int 8) })]).1.largeFilesMinSize
      = some (500 * 1024 * 1024) ∧
    (loadConfig "/h" "/" none none
      [SourceState.content 10 (some
        { downloadsDaysOld := some (NumVal.int (-5))
          largeFilesMinSize := some NumVal.nonInt
          backupRetentionDays := some (NumVal.int 400)
          concurrency := some (NumVal.int 8) })]).1.backupRetentionDays = some 7 ∧
    (loadConfig "/h" "/" none none
      [SourceState.content 10 (some
        { downloadsDaysOld := some (NumVal.int (-5))
          largeFilesMinSize := some NumVal.nonInt
          backupRetentionDays := some (NumVal.int 400)
          concurrency := some (NumVal.int 8) })]).1.concurrency = some 8 := by
  obtain ⟨h1, h2, h3, h4⟩ := loadConfig_numeric_field_validation "/h" "/"
    { downloadsDaysOld := some (NumVal.int (-5))
      largeFilesMinSize := some NumVal.nonInt
      backupRetentionDays := some (NumVal.int 400)
      concurrency := some (NumVal.int 8) } 10 (by decide)
  exact ⟨h1.trans (by decide), h2.trans (by decide), h3.trans (by decide),
    h4.trans (by decide)⟩

/-- C9: loadConfig never propagates an error: any disallowed custom config
path yields the built-in defaults, a failing custom source (missing,
oversized, malformed) yields the defaults, and when every candidate
source fails the defaults are returned. (The embedding is a total
function, mirroring that every fallible step in the source is wrapped in
try/catch and resolved by `continue` or a default.) -/
theorem loadConfig_failures_yield_defaults
    (home cwd : String) (cache : Option Config) (sources : List SourceState)
    (p : String) (st : SourceState) :
    ((∀ s ∈ sources, sourceFails s = true) →
       (loadConfig home cwd none none sources).1 = DEFAULT_CONFIG) ∧
    (((allowedConfigDirs home).any fun dir =>
         startsWithStr (resolve cwd p) (dir ++ "/") || resolve cwd p == dir)
         = false →
       (loadConfig home cwd cache (some (p, st)) sources).1 = DEFAULT_CONFIG) ∧
    (sourceFails st = true →
       (loadConfig home cwd cache (some (p, st)) sources).1 = DEFAULT_CONFIG) := by
  refine ⟨?_, ?_, ?_⟩
  · intro hall
    show loadConfigLoop sources = DEFAULT_CONFIG
    exact loadConfigLoop_of_all_fail sources hall
  · intro hdir
    rw [loadConfig_custom_eq, if_neg (by simp [hdir])]
  · intro hst
    rw [loadConfig_custom_eq]
    by_cases hcond : ((allowedConfigDirs home).any fun dir =>
        startsWithStr (resolve cwd p) (dir ++ "/") || resolve cwd p == dir) = true
    · rw [if_pos hcond]
      show loadConfigLoop [st] = DEFAULT_CONFIG
      exact loadConfigLoop_of_all_fail [st] (by simpa using hst)
    · rw [if_neg hcond]

/-- Witness for C9: a missing candidate list, a custom path outside the
allowed directories, and a malformed custom source each load the built-in
defaults. -/
theorem loadConfig_failures_yield_defaults_witness :
    (loadConfig "/h" "/" none none [SourceState.missing]).1 = DEFAULT_CONFIG ∧
    (loadConfig "/h" "/" none (some ("/etc/x", SourceState.missing)) []).1
      = DEFAULT_CONFIG ∧
    (loadConfig "/h" "/" none
      (some ("/h/.maccleanerrc", SourceState.content 10 none)) []).1
      = DEFAULT_CONFIG :=
  ⟨(loadConfig_failures_yield_defaults "/h" "/" none [SourceState.missing]
      "/h" SourceState.missing).1 (by decide),
   (loadConfig_failures_yield_defaults "/h" "/" none [] "/etc/x"
      SourceState.missing).2.1 (by decide),
   (loadConfig_failures_yield_defaults "/h" "/" none [] "/h/.maccleanerrc"
      (SourceState.content 10 none)).2.2 (by decide)⟩

/-- C10: provided the process-wide cache was only ever populated by
loadConfig itself, every Config returned by loadConfig has all six
default fields defined — the four numeric fields are integers within
their fixed constraint ranges and the two boolean fields are set —
whatever the untrusted source contained; and the new cache satisfies the
same invariant, so the property is preserved across calls. -/
theorem loadConfig_result_always_valid
    (home cwd : String) (cache : Option Config)
    (custom : Option (String × SourceState)) (sources : List SourceState)
    (hcache : ∀ c, cache = some c → validConfigB c = true) :
    validConfigB (loadConfig home cwd cache custom sources).1 = true ∧
    ∀ c, (loadConfig home cwd cache custom sources).2 = some c →
      validConfigB c = true := by
  cases custom with
  | some pst =>
    obtain ⟨p, st⟩ := pst
    rw [loadConfig_custom_eq]
    by_cases hcond : ((allowedConfigDirs home).any fun dir =>
        startsWithStr (resolve cwd p) (dir ++ "/") || resolve cwd p == dir) = true
    · rw [if_pos hcond]
      refine ⟨loadConfigLoop_valid [st], fun c hc => ?_⟩
      simp only [Option.some.injEq] at hc
      rw [← hc]
      exact loadConfigLoop_valid [st]
    · rw [if_neg hcond]
      refine ⟨by decide, fun c hc => ?_⟩
      simp only [Option.some.injEq] at hc
      rw [← hc]
      decide
  | none =>
    cases cache with
    | some c0 =>
      refine ⟨hcache c0 rfl, fun c hc => ?_⟩
      have hc2 : (some c0 : Option Config) = some c := hc
      simp only [Option.some.injEq] at hc2
      rw [← hc2]
      exact hcache c0 rfl
    | none =>
      refine ⟨loadConfigLoop_valid sources, fun c hc => ?_⟩
      have hc2 : (some (loadConfigLoop sources) : Option Config) = some c := hc
      simp only [Option.some.injEq] at hc2
      rw [← hc2]
      exact loadConfigLoop_valid sources

/-- Witness for C10: an out-of-range, non-integer-laden source still loads
a fully valid configuration. -/
theorem loadConfig_result_always_valid_witness :
    validConfigB (loadConfig "/h" "/" none none
      [SourceState.content 10 (some
        { downloadsDaysOld := some NumVal.nonInt
          concurrency := some (NumVal.int 999) })]).1 = true :=
  (loadConfig_result_always_valid "/h" "/" none none
    [SourceState.content 10 (some
      { downloadsDaysOld := some NumVal.nonInt
        concurrency := some (NumVal.int 999) })]
    (fun c hc => by cases hc)).1

end MacCleaner
